import Mathlib

/-!
Verification of the fastq-filter core: a shallow embedding of the
quality-statistics engine (`fallback_algorithms.py`), the multi-file
synchronizer and pipeline composer (`__init__.py`), and the filter
abstraction (`_abstracts.py`, with the concrete filter classes of
`_filters.py` modelled from the specification where the module is not
part of the sources at hand).

Conventions of the embedding:
* Python byte strings become `List Nat` (one entry per byte).
* Python floats become real numbers `ℝ` where transcendental functions
  are involved, and exact rationals `ℚ` where only field arithmetic is
  involved (Python's true division of ints).
* Code that can raise becomes `Except`-valued; each exception that can
  actually be raised is a constructor of an error inductive.
* Generators become functions returning the list of yielded values
  together with an `Option` of the terminal error.
-/

set_option maxHeartbeats 1000000

namespace FastqFilter

/-- A dnaio sequence record as consumed by the pipeline: a name, a
sequence (string of bases) and the raw quality bytes. -/
structure SequenceRecord where
  name : String
  sequence : String
  qualities : List Nat
deriving DecidableEq

/-- `constants.DEFAULT_PHRED_SCORE_OFFSET`. Modelled from the spec:
the `constants` module is not among the sources; the spec fixes the
default offset at 33. -/
def DEFAULT_PHRED_SCORE_OFFSET : Nat := 33

/-- Errors raised by the pure-Python fallback algorithms:
`0.0 / 0` raises `ZeroDivisionError` in `qualmean`, and
`statistics.median` raises `StatisticsError` on empty data. -/
inductive FallbackError
  | zeroDivision
  | emptyData
deriving DecidableEq

/-- The constant `phred_constant = 10 ** -0.1` of
`fallback_algorithms.qualmean`. -/
noncomputable def phred_constant : ℝ := (10 : ℝ) ^ (-(1 / 10 : ℝ))

/-- `fallback_algorithms.qualmean`: sums `phred_constant ** score` over
the raw quality bytes, divides by the length (raising
`ZeroDivisionError` when the string is empty) and returns
`-10 * log10(average) - phred_offset`. -/
noncomputable def qualmean (qualities : List Nat) (phred_offset : ℝ) :
    Except FallbackError ℝ :=
  if qualities.length = 0 then Except.error FallbackError.zeroDivision
  else
    Except.ok (-10 * Real.logb 10
      (((qualities.map (fun (score : Nat) => phred_constant ^ (score : ℝ))).sum)
        / (qualities.length : ℝ)) - phred_offset)

/-- A Python number as returned by `statistics.median` and propagated
by `qualmedian`: `int` for the odd-length branch, `float` (modelled as
an exact rational, since only ring operations occur) for the
even-length branch. -/
inductive PyNum
  | int (z : ℤ)
  | float (q : ℚ)
deriving DecidableEq

/-- Whether a `PyNum` is a Python float. -/
def PyNum.isFloat : PyNum → Bool
  | PyNum.int _ => false
  | PyNum.float _ => true

/-- Python's `int - int = int`, `float - int = float`. -/
def PyNum.sub : PyNum → ℤ → PyNum
  | PyNum.int a, b => PyNum.int (a - b)
  | PyNum.float a, b => PyNum.float (a - (b : ℚ))

/-- `statistics.median`: sort the data; raise on empty input; return
the middle element (an int) for odd length, and the true-division mean
of the two middle elements (a float) for even length. -/
def pyMedian (data : List Nat) : Except FallbackError PyNum :=
  let s := data.insertionSort (fun a b => a ≤ b)
  let n := s.length
  if n = 0 then Except.error FallbackError.emptyData
  else if n % 2 = 1 then Except.ok (PyNum.int (s.getD (n / 2) 0))
  else Except.ok (PyNum.float
    (((s.getD (n / 2 - 1) 0 : ℚ) + (s.getD (n / 2) 0 : ℚ)) / 2))

/-- `fallback_algorithms.qualmedian`: `statistics.median(qualities) -
phred_offset`. -/
def qualmedian (qualities : List Nat) (phred_offset : ℤ) :
    Except FallbackError PyNum :=
  (pyMedian qualities).map (fun m => m.sub phred_offset)

/-- The ascending sort used by `statistics.median`. -/
def sortedQuals (data : List Nat) : List Nat :=
  data.insertionSort (fun a b => a ≤ b)

/-- C1 (amended): on an empty quality string the fallback aggregates
raise — `qualmean` hits `0.0 / 0` (`ZeroDivisionError`) and
`qualmedian` hits `statistics.median`'s empty-data error; neither
returns `NaN` as a normal value. -/
theorem qualmean_qualmedian_error_on_empty :
    ∀ (off : ℝ) (offz : ℤ),
      qualmean [] off = Except.error FallbackError.zeroDivision ∧
      qualmedian [] offz = Except.error FallbackError.emptyData := by
  intro off offz
  exact ⟨rfl, rfl⟩

/-- C1 (counterexample): at the concrete empty input and the default
offset, both aggregates evaluate to an error, refuting the claim that
calling either aggregate on an empty quality string does not raise. -/
theorem empty_quality_raises_counterexample :
    qualmean [] 33 = Except.error FallbackError.zeroDivision ∧
    qualmedian [] 33 = Except.error FallbackError.emptyData :=
  ⟨rfl, rfl⟩

/-- C6 (amended): on even-length input `qualmedian` returns a Python
float equal to the arithmetic mean of the two middle sorted decoded
values — in particular `qualmedian` of the bytes of "AACEGG" at offset
0 is the float 68 — but on odd-length input the fallback returns the
middle sorted decoded value as a Python int, so the floating-point
return type holds only on the even-length path. -/
theorem qualmedian_even_float_odd_int :
    ∀ (data : List Nat) (off : ℤ),
      (data.length % 2 = 0 → data ≠ [] →
        qualmedian data off = Except.ok (PyNum.float
          ((((sortedQuals data).getD (data.length / 2 - 1) 0 : ℚ) - (off : ℚ) +
            (((sortedQuals data).getD (data.length / 2) 0 : ℚ) - (off : ℚ))) / 2))) ∧
      (data.length % 2 = 1 →
        qualmedian data off = Except.ok (PyNum.int
          (((sortedQuals data).getD (data.length / 2) 0 : ℤ) - off))) ∧
      qualmedian [65, 65, 67, 69, 71, 71] 0 = Except.ok (PyNum.float 68) := by
  intro data off
  have hlen : (data.insertionSort (fun a b => a ≤ b)).length = data.length :=
    List.length_insertionSort _ _
  refine ⟨?_, ?_, ?_⟩
  · intro h0 hne
    have hne0 : ¬ data.length = 0 := by
      simpa [List.length_eq_zero] using hne
    have hodd : ¬ data.length % 2 = 1 := by omega
    simp only [qualmedian, pyMedian, sortedQuals, hlen, hne0, hodd,
      if_false, Except.map, PyNum.sub]
    congr 2
    ring
  · intro h1
    have hne0 : ¬ data.length = 0 := by omega
    simp only [qualmedian, pyMedian, sortedQuals, hlen, hne0, h1,
      if_false, if_true, Except.map, PyNum.sub]
  · norm_num [qualmedian, pyMedian, PyNum.sub, Except.map,
      List.insertionSort, List.orderedInsert]

/-- C6 (counterexample): on the odd-length input `[65, 66, 67]` at
offset 0, `qualmedian` returns the Python int 66, not a float — the
claim that the floating-point return type holds uniformly on both the
even- and odd-length code paths is false. -/
theorem qualmedian_odd_returns_int_counterexample :
    qualmedian [65, 66, 67] 0 = Except.ok (PyNum.int 66) ∧
    (PyNum.int 66).isFloat = false :=
  ⟨rfl, rfl⟩

/-- C6 (witness): the even-branch of `qualmedian_even_float_odd_int`
applied at the bytes of "AACEGG" and offset 0. -/
theorem qualmedian_even_float_odd_int_witness :
    ([65, 65, 67, 69, 71, 71] : List Nat).length % 2 = 0 ∧
    qualmedian [65, 65, 67, 69, 71, 71] 0 = Except.ok (PyNum.float
      ((((sortedQuals [65, 65, 67, 69, 71, 71]).getD (([65, 65, 67, 69, 71, 71] : List Nat).length / 2 - 1) 0 : ℚ) - ((0 : ℤ) : ℚ) +
        (((sortedQuals [65, 65, 67, 69, 71, 71]).getD (([65, 65, 67, 69, 71, 71] : List Nat).length / 2) 0 : ℚ) - ((0 : ℤ) : ℚ))) / 2)) :=
  ⟨by decide, (qualmedian_even_float_odd_int [65, 65, 67, 69, 71, 71] 0).1
    (by decide) (by decide)⟩

/-- The direct per-element mean-quality formula in the words of the
spec: convert every byte to an error probability
`10 ^ (-(byte - offset) / 10)`, average, and convert back with
`-10 * log10`. This is the spec-side definition kept for the
refinement comparison with the factored-constant `qualmean`. -/
noncomputable def qualmeanDirect (qualities : List Nat) (phred_offset : ℝ) : ℝ :=
  -10 * Real.logb 10
    (((qualities.map (fun (b : Nat) => (10 : ℝ) ^ (-((b : ℝ) - phred_offset) / 10))).sum)
      / (qualities.length : ℝ))

/-- C4: on every non-empty quality string of valid phred bytes and any
offset, the factored-constant implementation (`qualmean`, summing
`phred_constant ^ score` over raw bytes and subtracting the offset
after the logarithm) equals the direct per-element formula exactly in
real arithmetic. -/
theorem qualmean_factored_eq_direct :
    ∀ (qualities : List Nat) (off : ℝ),
      qualities ≠ [] →
      (∀ b ∈ qualities, 33 ≤ b ∧ b ≤ 126) →
      qualmean qualities off = Except.ok (qualmeanDirect qualities off) := by
  intro qs off hne _hvalid
  have hne0 : ¬ qs.length = 0 := by simpa [List.length_eq_zero] using hne
  have hten : (0 : ℝ) < 10 := by norm_num
  have hmap : qs.map (fun (score : Nat) => phred_constant ^ (score : ℝ))
      = qs.map (fun (b : Nat) => (10 : ℝ) ^ (-((b : ℝ) - off) / 10) * (10 : ℝ) ^ (-off / 10)) := by
    refine List.map_congr_left ?_
    intro b _
    rw [phred_constant, ← Real.rpow_mul (le_of_lt hten), ← Real.rpow_add hten]
    congr 1
    ring
  have hsum : (qs.map (fun (b : Nat) => (10 : ℝ) ^ (-((b : ℝ) - off) / 10) * (10 : ℝ) ^ (-off / 10))).sum
      = (qs.map (fun (b : Nat) => (10 : ℝ) ^ (-((b : ℝ) - off) / 10))).sum * (10 : ℝ) ^ (-off / 10) :=
    List.sum_map_mul_right _ _ _
  have hS : 0 < (qs.map (fun (b : Nat) => (10 : ℝ) ^ (-((b : ℝ) - off) / 10))).sum := by
    apply List.sum_pos
    · intro a ha
      obtain ⟨b, _, rfl⟩ := List.mem_map.mp ha
      exact Real.rpow_pos_of_pos hten _
    · exact fun h => hne (List.map_eq_nil_iff.mp h)
  have hn : (0 : ℝ) < (qs.length : ℝ) := by
    exact_mod_cast Nat.pos_of_ne_zero hne0
  have hc : (0 : ℝ) < (10 : ℝ) ^ (-off / 10) := Real.rpow_pos_of_pos hten _
  simp only [qualmean, hne0, if_false, qualmeanDirect]
  congr 1
  rw [hmap, hsum, mul_div_right_comm,
    Real.logb_mul (ne_of_gt (div_pos hS hn)) (ne_of_gt hc),
    Real.logb_rpow (by norm_num) (by norm_num)]
  ring

/-- Whether a fallible computation succeeded. -/
def exceptIsOk {ε α : Type} : Except ε α → Bool
  | Except.ok _ => true
  | Except.error _ => false

/-- Validation errors of the package-level quality statistics. The
`Encoding` error (byte not 7-bit ASCII) is a distinct constructor from
`OutOfRange` (byte outside the legal phred byte range), and the
package-level functions also reject empty input. -/
inductive PhredError
  | outOfRange (b : Nat)
  | encoding (b : Nat)
  | emptyInput
deriving DecidableEq

/-- Modelled from the spec: the §4.1 Quality Codec byte validation of
the package-level `qualmean`/`qualmedian` lives in `_filters.py` /
`optimized_algorithms.pyx`, which are not among the sources at hand.
Per the spec and the repository's tests, a byte ≥ 128 fails with the
`Encoding` error, a byte outside `[33, 126]` fails with `OutOfRange`,
and any byte in `[33, 126]` is accepted. -/
def decode (b : Nat) : Except PhredError Nat :=
  if 128 ≤ b then Except.error (PhredError.encoding b)
  else if b < 33 ∨ 126 < b then Except.error (PhredError.outOfRange b)
  else Except.ok b

/-- Modelled from the spec: validation of a whole quality string,
failing on the first invalid byte. -/
def validQuals : List Nat → Except PhredError Unit
  | [] => Except.ok ()
  | b :: bs =>
    match decode b with
    | Except.error e => Except.error e
    | Except.ok _ => validQuals bs

/-- Modelled from the spec: the package-level `qualmean` — validate
every byte per §4.1, reject empty input (the repository's tests expect
a ValueError matching "Empty"), then compute the fallback mean. -/
noncomputable def qualmeanChecked (qs : List Nat) (off : ℝ) :
    Except PhredError ℝ :=
  match validQuals qs with
  | Except.error e => Except.error e
  | Except.ok _ =>
    match qualmean qs off with
    | Except.error _ => Except.error PhredError.emptyInput
    | Except.ok v => Except.ok v

/-- Modelled from the spec: the package-level `qualmedian`, validated
like `qualmeanChecked`. -/
def qualmedianChecked (qs : List Nat) (off : ℤ) :
    Except PhredError PyNum :=
  match validQuals qs with
  | Except.error e => Except.error e
  | Except.ok _ =>
    match qualmedian qs off with
    | Except.error _ => Except.error PhredError.emptyInput
    | Except.ok v => Except.ok v

theorem validQuals_ok_iff :
    ∀ qs : List Nat,
      (validQuals qs = Except.ok () ↔ ∀ b ∈ qs, 33 ≤ b ∧ b ≤ 126) := by
  intro qs
  induction qs with
  | nil => simp [validQuals]
  | cons b bs ih =>
    by_cases hb : 33 ≤ b ∧ b ≤ 126
    · have hdec : decode b = Except.ok b := by
        unfold decode
        rw [if_neg (by omega), if_neg (by omega)]
      simp [validQuals, hdec, ih, hb]
    · have hbad : b < 33 ∨ 126 < b := by omega
      by_cases h128 : 128 ≤ b
      · have hdec : decode b = Except.error (PhredError.encoding b) := by
          unfold decode
          rw [if_pos h128]
        simp [validQuals, hdec, hb]
      · have hdec : decode b = Except.error (PhredError.outOfRange b) := by
          unfold decode
          rw [if_neg h128, if_pos hbad]
        simp [validQuals, hdec, hb]

theorem validQuals_error_kinds :
    ∀ (qs : List Nat) (e : PhredError),
      validQuals qs = Except.error e →
      ∃ c ∈ qs, (e = PhredError.encoding c ∧ 128 ≤ c) ∨
        (e = PhredError.outOfRange c ∧ (c < 33 ∨ 126 < c)) := by
  intro qs
  induction qs with
  | nil => intro e h; simp [validQuals] at h
  | cons b bs ih =>
    intro e h
    by_cases hb : 33 ≤ b ∧ b ≤ 126
    · have hdec : decode b = Except.ok b := by
        unfold decode
        rw [if_neg (by omega), if_neg (by omega)]
      rw [validQuals, hdec] at h
      obtain ⟨c, hc, hck⟩ := ih e h
      exact ⟨c, List.mem_cons_of_mem _ hc, hck⟩
    · by_cases h128 : 128 ≤ b
      · have hdec : decode b = Except.error (PhredError.encoding b) := by
          unfold decode
          rw [if_pos h128]
        rw [validQuals, hdec] at h
        cases h
        exact ⟨b, List.mem_cons_self _ _, Or.inl ⟨rfl, h128⟩⟩
      · have hdec : decode b = Except.error (PhredError.outOfRange b) := by
          unfold decode
          rw [if_neg h128, if_pos (by omega)]
        rw [validQuals, hdec] at h
        cases h
        exact ⟨b, List.mem_cons_self _ _, Or.inr ⟨rfl, by omega⟩⟩

theorem validQuals_cases (qs : List Nat) :
    validQuals qs = Except.ok () ∨ ∃ e, validQuals qs = Except.error e := by
  cases h : validQuals qs with
  | ok u => cases u; exact Or.inl rfl
  | error e => exact Or.inr ⟨e, rfl⟩

/-- C3 (spec-modelled): byte validation fails with `OutOfRange` for
bytes below 33 or above 126 that are still ASCII, with the distinct
`Encoding` error for bytes ≥ 128, and accepts exactly the bytes in
`[33, 126]`; the validated `qualmean`/`qualmedian` succeed only when
every byte is in `[33, 126]` and raise one of the two distinguishable
errors on any input containing an invalid byte. -/
theorem phred_validation_errors :
    ∀ (b : Nat) (qs : List Nat) (off : ℝ) (offz : ℤ),
      (128 ≤ b → decode b = Except.error (PhredError.encoding b)) ∧
      ((b < 33 ∨ 126 < b) → b < 128 →
        decode b = Except.error (PhredError.outOfRange b)) ∧
      (exceptIsOk (decode b) = true ↔ (33 ≤ b ∧ b ≤ 126)) ∧
      (∀ c d : Nat, PhredError.encoding c ≠ PhredError.outOfRange d) ∧
      (exceptIsOk (qualmeanChecked qs off) = true → ∀ c ∈ qs, 33 ≤ c ∧ c ≤ 126) ∧
      (exceptIsOk (qualmedianChecked qs offz) = true → ∀ c ∈ qs, 33 ≤ c ∧ c ≤ 126) ∧
      (b ∈ qs → (b < 33 ∨ 126 < b) →
        (∃ c, qualmeanChecked qs off = Except.error (PhredError.encoding c) ∨
          qualmeanChecked qs off = Except.error (PhredError.outOfRange c)) ∧
        (∃ c, qualmedianChecked qs offz = Except.error (PhredError.encoding c) ∨
          qualmedianChecked qs offz = Except.error (PhredError.outOfRange c))) := by
  intro b qs off offz
  have hvalid_of_ok : ∀ u, validQuals qs = Except.ok u → ∀ c ∈ qs, 33 ≤ c ∧ c ≤ 126 := by
    intro u h
    cases u
    exact (validQuals_ok_iff qs).mp h
  have herr_of_bad : b ∈ qs → (b < 33 ∨ 126 < b) → ∃ e, validQuals qs = Except.error e := by
    intro hmem hbad
    rcases validQuals_cases qs with hok | he
    · have := (validQuals_ok_iff qs).mp hok b hmem
      omega
    · exact he
  refine ⟨?_, ?_, ?_, ?_, ?_, ?_, ?_⟩
  · intro h128
    unfold decode
    rw [if_pos h128]
  · intro hbad h128
    unfold decode
    rw [if_neg (by omega), if_pos hbad]
  · constructor
    · intro h
      by_cases hb : 33 ≤ b ∧ b ≤ 126
      · exact hb
      · exfalso
        by_cases h128 : 128 ≤ b
        · rw [show decode b = Except.error (PhredError.encoding b) by
            unfold decode; rw [if_pos h128]] at h
          simp [exceptIsOk] at h
        · rw [show decode b = Except.error (PhredError.outOfRange b) by
            unfold decode; rw [if_neg h128, if_pos (by omega)]] at h
          simp [exceptIsOk] at h
    · intro hb
      rw [show decode b = Except.ok b by
        unfold decode; rw [if_neg (by omega), if_neg (by omega)]]
      rfl
  · intro c d h
    cases h
  · intro h
    cases hv : validQuals qs with
    | ok u => exact hvalid_of_ok u hv
    | error e =>
      rw [show qualmeanChecked qs off = Except.error e by
        unfold qualmeanChecked; rw [hv]] at h
      simp [exceptIsOk] at h
  · intro h
    cases hv : validQuals qs with
    | ok u => exact hvalid_of_ok u hv
    | error e =>
      rw [show qualmedianChecked qs offz = Except.error e by
        unfold qualmedianChecked; rw [hv]] at h
      simp [exceptIsOk] at h
  · intro hmem hbad
    obtain ⟨e, he⟩ := herr_of_bad hmem hbad
    obtain ⟨c, _, hck⟩ := validQuals_error_kinds qs e he
    have hmean : qualmeanChecked qs off = Except.error e := by
      unfold qualmeanChecked; rw [he]
    have hmedian : qualmedianChecked qs offz = Except.error e := by
      unfold qualmedianChecked; rw [he]
    rcases hck with ⟨rfl, _⟩ | ⟨rfl, _⟩
    · exact ⟨⟨c, Or.inl hmean⟩, ⟨c, Or.inl hmedian⟩⟩
    · exact ⟨⟨c, Or.inr hmean⟩, ⟨c, Or.inr hmedian⟩⟩

/-- C3 (witness): the validation theorem applied at the concrete byte
130 (an `Encoding` failure), the byte 20 inside a quality string (an
`OutOfRange` failure of both aggregates), and a fully valid string. -/
theorem phred_validation_errors_witness :
    (128 ≤ 130 ∧ decode 130 = Except.error (PhredError.encoding 130)) ∧
    ((20 < 33 ∨ 126 < 20) ∧ 20 < 128 ∧
      decode 20 = Except.error (PhredError.outOfRange 20)) ∧
    ((20 : Nat) ∈ ([20, 70] : List Nat) ∧
      (∃ c, qualmedianChecked [20, 70] 33 = Except.error (PhredError.encoding c) ∨
        qualmedianChecked [20, 70] 33 = Except.error (PhredError.outOfRange c))) :=
  ⟨⟨by decide, (phred_validation_errors 130 [] 33 33).1 (by decide)⟩,
   ⟨by decide, by decide,
    (phred_validation_errors 20 [] 33 33).2.1 (by decide) (by decide)⟩,
   ⟨by decide,
    ((phred_validation_errors 20 [20, 70] 33 33).2.2.2.2.2.2
      (by decide) (by decide)).2⟩⟩

/-- C4 (witness): the factored/direct equivalence applied at the
concrete two-byte quality string `[65, 70]` and the default offset. -/
theorem qualmean_factored_eq_direct_witness :
    (([65, 70] : List Nat) ≠ []) ∧
    (∀ b ∈ ([65, 70] : List Nat), 33 ≤ b ∧ b ≤ 126) ∧
    qualmean [65, 70] 33 = Except.ok (qualmeanDirect [65, 70] 33) :=
  ⟨by decide, by decide,
   qualmean_factored_eq_direct [65, 70] 33 (by decide) (by decide)⟩

/-- Modelled from the spec: `MinimumLengthFilter` lives in
`_filters.py`, which is not among the sources at hand. Per the spec
(and the repository's `test_minimum_length_filter` table) the group
passes iff at least one record's sequence length reaches the
threshold. -/
def minimumLengthFilter (threshold : Nat) (group : List SequenceRecord) : Bool :=
  group.any (fun r => decide (threshold ≤ r.sequence.length))

/-- Modelled from the spec: `MaximumLengthFilter` of `_filters.py`,
not among the sources at hand. Per the spec (and
`test_maximum_length_filter`) the group passes iff every record's
sequence length is at most the threshold. -/
def maximumLengthFilter (threshold : Nat) (group : List SequenceRecord) : Bool :=
  group.all (fun r => decide (r.sequence.length ≤ threshold))

/-- C7 (spec-modelled): `MinimumLengthFilter` passes iff some record
in the group is long enough (an OR across mates) and
`MaximumLengthFilter` passes iff every record is short enough (an AND
across mates); at threshold 10 a group of mates of lengths 9 and 11
passes the minimum-length filter but fails the maximum-length filter,
matching the repository's filter test table. -/
theorem length_filters_or_and :
    (∀ (t : Nat) (group : List SequenceRecord),
      (minimumLengthFilter t group = true ↔ ∃ r ∈ group, t ≤ r.sequence.length) ∧
      (maximumLengthFilter t group = true ↔ ∀ r ∈ group, r.sequence.length ≤ t)) ∧
    minimumLengthFilter 10
      [⟨"r", "AAAAAAAAA", []⟩, ⟨"r", "AAAAAAAAAAA", []⟩] = true ∧
    maximumLengthFilter 10
      [⟨"r", "AAAAAAAAA", []⟩, ⟨"r", "AAAAAAAAAAA", []⟩] = false := by
  refine ⟨?_, by decide, by decide⟩
  intro t group
  constructor
  · simp [minimumLengthFilter, List.any_eq_true]
  · simp [maximumLengthFilter, List.all_eq_true]

/-- The filter chain of `filter_fastq`: `for filter_func in filters:
filtered_fastq_records = filter(filter_func, filtered_fastq_records)`. -/
def filterChain {α : Type} (filters : List (α → Bool)) (groups : List α) : List α :=
  filters.foldl (fun acc f => acc.filter f) groups

/-- One surviving tuple written to the output sinks: `for record,
output in zip(records, outputs): output.write(record.fastq_bytes())`.
Each sink is the list of records written to it so far. -/
def appendZip {α : Type} : List (List α) → List α → List (List α)
  | out :: outs, r :: rs => (out ++ [r]) :: appendZip outs rs
  | outs, [] => outs
  | [], _ => []

/-- The write loop of `filter_fastq`: every surviving tuple is
written, one member per output sink. -/
def writeAll {α : Type} (survivors : List (List α)) (outputs : List (List α)) :
    List (List α) :=
  survivors.foldl appendZip outputs

theorem filterChain_eq_filter_all {α : Type} :
    ∀ (fs : List (α → Bool)) (gs : List α),
      filterChain fs gs = gs.filter (fun g => fs.all (fun f => f g)) := by
  intro fs
  induction fs with
  | nil => intro gs; simp [filterChain]
  | cons f fs ih =>
    intro gs
    have h1 : filterChain (f :: fs) gs = filterChain fs (gs.filter f) := rfl
    rw [h1, ih, List.filter_filter]
    refine List.filter_congr ?_
    intro a _
    simp [Bool.and_comm]

theorem appendZip_length {α : Type} :
    ∀ (outs : List (List α)) (t : List α),
      (appendZip outs t).length = outs.length := by
  intro outs
  induction outs with
  | nil => intro t; cases t <;> rfl
  | cons out outs ih =>
    intro t
    cases t with
    | nil => rfl
    | cons r rs => simp [appendZip, ih]

theorem appendZip_getD {α : Type} :
    ∀ (outs : List (List α)) (t : List α) (j : Nat), j < outs.length →
      (appendZip outs t).getD j [] = outs.getD j [] ++ (t[j]?).toList := by
  intro outs
  induction outs with
  | nil => intro t j hj; simp at hj
  | cons out outs ih =>
    intro t j hj
    cases t with
    | nil => simp [appendZip]
    | cons r rs =>
      cases j with
      | zero => simp [appendZip]
      | succ j =>
        have hj' : j < outs.length := by simpa using hj
        have h := ih rs j hj'
        simp only [List.getD] at h
        simpa [appendZip, List.getD] using h

theorem writeAll_getD {α : Type} :
    ∀ (survivors : List (List α)) (outs : List (List α)) (j : Nat),
      j < outs.length →
      (writeAll survivors outs).getD j []
        = outs.getD j [] ++ survivors.filterMap (fun t => t[j]?) := by
  intro survivors
  induction survivors with
  | nil => intro outs j hj; simp [writeAll]
  | cons t ts ih =>
    intro outs j hj
    have hstep : writeAll (t :: ts) outs = writeAll ts (appendZip outs t) := rfl
    have hj' : j < (appendZip outs t).length := by
      rw [appendZip_length]; exact hj
    rw [hstep, ih (appendZip outs t) j hj', appendZip_getD outs t j hj]
    cases h : t[j]? with
    | none => simp [List.filterMap_cons, h]
    | some r => simp [List.filterMap_cons, h]

/-- C5: the filter chain yields exactly the in-order subsequence of
groups for which every filter returns true; the stream reaching any
given filter in the chain consists exactly of the groups that passed
all earlier filters (so a later filter is never evaluated on a group
an earlier filter rejected); and the write loop sends member `j` of
each surviving tuple to output sink `j`, preserving input order. -/
theorem filter_chain_spec :
    (∀ (fs : List (List SequenceRecord → Bool)) (gs : List (List SequenceRecord)),
      filterChain fs gs = gs.filter (fun g => fs.all (fun f => f g))) ∧
    (∀ (pre post : List (List SequenceRecord → Bool))
        (f : List SequenceRecord → Bool) (gs : List (List SequenceRecord)),
      filterChain (pre ++ f :: post) gs
        = filterChain post
            ((gs.filter (fun g => pre.all (fun p => p g))).filter f)) ∧
    (∀ (survivors : List (List SequenceRecord)) (n j : Nat), j < n →
      (writeAll survivors (List.replicate n [])).getD j []
        = survivors.filterMap (fun t => t[j]?)) := by
  refine ⟨fun fs gs => filterChain_eq_filter_all fs gs, ?_, ?_⟩
  · intro pre post f gs
    have h1 : filterChain (pre ++ f :: post) gs
        = filterChain post ((filterChain pre gs).filter f) := by
      rw [filterChain, List.foldl_append]
      rfl
    rw [h1, filterChain_eq_filter_all pre gs]
  · intro survivors n j hj
    have hj' : j < (List.replicate n ([] : List SequenceRecord)).length := by
      simpa using hj
    rw [writeAll_getD survivors _ j hj']
    simp [List.getD, hj]

/-- C5 (witness): the write-loop part of `filter_chain_spec` applied
to one surviving pair written to two sinks. -/
theorem filter_chain_spec_witness :
    (0 : Nat) < 2 ∧
    (writeAll [[(⟨"a", "A", [70]⟩ : SequenceRecord), ⟨"b", "C", [71]⟩]]
      (List.replicate 2 [])).getD 0 []
      = [[(⟨"a", "A", [70]⟩ : SequenceRecord), ⟨"b", "C", [71]⟩]].filterMap
          (fun t => t[0]?) :=
  ⟨by decide, filter_chain_spec.2.2 _ 2 0 (by decide)⟩

/-- The `Filter` abstraction of `_abstracts.py`: a named predicate
over one record group carrying a `threshold` and the counters `total`
and `passed`. -/
structure Filter where
  passes : List SequenceRecord → Bool
  threshold : ℚ
  total : Nat
  passed : Nat

/-- Modelled from the spec: the counter discipline of the concrete
filter classes of `_filters.py` (not among the sources at hand) —
every `evaluate` call increments `total` unconditionally and
increments `passed` iff the call returns true. -/
def Filter.evaluate (f : Filter) (g : List SequenceRecord) : Bool × Filter :=
  let r := f.passes g
  (r, { f with total := f.total + 1, passed := f.passed + (if r then 1 else 0) })

/-- A filter evaluated over a whole stream of groups, threading its
counter state. -/
def Filter.run (f : Filter) (gs : List (List SequenceRecord)) : Filter :=
  gs.foldl (fun acc g => (acc.evaluate g).2) f

theorem Filter.run_total :
    ∀ (gs : List (List SequenceRecord)) (f : Filter),
      (f.run gs).total = f.total + gs.length := by
  intro gs
  induction gs with
  | nil => intro f; rfl
  | cons g gs ih =>
    intro f
    have hstep : f.run (g :: gs) = ((f.evaluate g).2).run gs := rfl
    rw [hstep, ih]
    simp [Filter.evaluate]
    omega

theorem Filter.run_passed :
    ∀ (gs : List (List SequenceRecord)) (f : Filter),
      (f.run gs).passed = f.passed + gs.countP f.passes := by
  intro gs
  induction gs with
  | nil => intro f; rfl
  | cons g gs ih =>
    intro f
    have hstep : f.run (g :: gs) = ((f.evaluate g).2).run gs := rfl
    rw [hstep, ih]
    simp [Filter.evaluate, List.countP_cons]
    cases h : f.passes g <;> (simp [h]; try omega)

/-- C9 (spec-modelled): each `evaluate` call increments `total` by
exactly one and increments `passed` by exactly one iff the call
returned true; over any run the counters grow by the number of groups
seen and the number of groups passed respectively (so both are
monotonically non-decreasing and never reset), and `passed ≤ total` is
preserved. -/
theorem filter_counters_spec :
    ∀ (f : Filter) (g : List SequenceRecord) (gs : List (List SequenceRecord)),
      ((f.evaluate g).2.total = f.total + 1) ∧
      ((f.evaluate g).1 = true → (f.evaluate g).2.passed = f.passed + 1) ∧
      ((f.evaluate g).1 = false → (f.evaluate g).2.passed = f.passed) ∧
      ((f.run gs).total = f.total + gs.length) ∧
      ((f.run gs).passed = f.passed + gs.countP f.passes) ∧
      (f.total ≤ (f.run gs).total ∧ f.passed ≤ (f.run gs).passed) ∧
      (f.passed ≤ f.total → (f.run gs).passed ≤ (f.run gs).total) := by
  intro f g gs
  refine ⟨rfl, ?_, ?_, Filter.run_total gs f, Filter.run_passed gs f, ?_, ?_⟩
  · intro h
    simp only [Filter.evaluate] at h ⊢
    simp [h]
  · intro h
    simp only [Filter.evaluate] at h ⊢
    simp [h]
  · constructor
    · rw [Filter.run_total gs f]; omega
    · rw [Filter.run_passed gs f]; omega
  · intro hle
    rw [Filter.run_total gs f, Filter.run_passed gs f]
    have := List.countP_le_length (l := gs) (p := f.passes)
    omega

/-- C9 (witness): the counter invariant applied to a concrete filter
run over two groups, of which exactly one passes. -/
theorem filter_counters_spec_witness :
    (0 : Nat) ≤ 0 ∧
    ((⟨fun g => decide (g.length = 1), 0, 0, 0⟩ : Filter).run
      [[⟨"a", "A", [70]⟩], []]).passed
      ≤ ((⟨fun g => decide (g.length = 1), 0, 0, 0⟩ : Filter).run
      [[⟨"a", "A", [70]⟩], []]).total :=
  ⟨by decide,
   (filter_counters_spec ⟨fun g => decide (g.length = 1), 0, 0, 0⟩ []
     [[⟨"a", "A", [70]⟩], []]).2.2.2.2.2.2 (by decide)⟩

/-- The filter-relevant command line options of `main`, each `none`
when the option was not supplied (argparse's default). -/
structure Args where
  min_length : Option ℤ
  max_length : Option ℤ
  average_error_rate : Option ℚ
  mean_quality : Option ℤ
  median_quality : Option ℤ

/-- The kind and threshold of a filter appended by `main`. -/
inductive FilterSpec
  | minimumLength (threshold : ℤ)
  | maximumLength (threshold : ℤ)
  | averageErrorRate (threshold : ℝ)
  | medianQuality (threshold : ℤ)

/-- Python truthiness of an optional int: `None` and `0` are falsy. -/
def truthyInt : Option ℤ → Bool
  | none => false
  | some v => decide (v ≠ 0)

/-- Python truthiness of an optional float: `None` and `0.0` are
falsy. -/
def truthyRat : Option ℚ → Bool
  | none => false
  | some v => decide (v ≠ 0)

/-- The filter list built by `main`: one `if args.option:` per filter
kind, in source order; the `--mean-quality` convenience option appends
an `AverageErrorRateFilter` with threshold `10 ** -(q / 10)`. -/
noncomputable def mainFilters (args : Args) : List FilterSpec :=
  (if truthyInt args.min_length then
    [FilterSpec.minimumLength (args.min_length.getD 0)] else [])
  ++ (if truthyInt args.max_length then
    [FilterSpec.maximumLength (args.max_length.getD 0)] else [])
  ++ (if truthyRat args.average_error_rate then
    [FilterSpec.averageErrorRate ((args.average_error_rate.getD 0 : ℚ) : ℝ)] else [])
  ++ (if truthyInt args.mean_quality then
    [FilterSpec.averageErrorRate
      ((10 : ℝ) ^ (-((args.mean_quality.getD 0 : ℤ) : ℝ) / 10))] else [])
  ++ (if truthyInt args.median_quality then
    [FilterSpec.medianQuality (args.median_quality.getD 0)] else [])

/-- C10: `main` tests each filter option by Python truthiness rather
than by comparison with `None`, so an option supplied with the falsy
value 0 (or 0.0) adds no corresponding filter: supplying 0 for any of
the five options builds the same filter list as omitting it, and
supplying 0 for all five builds an empty pipeline. -/
theorem falsy_options_add_no_filter :
    (∀ args : Args, args.min_length = some 0 →
      mainFilters args = mainFilters { args with min_length := none }) ∧
    (∀ args : Args, args.max_length = some 0 →
      mainFilters args = mainFilters { args with max_length := none }) ∧
    (∀ args : Args, args.average_error_rate = some 0 →
      mainFilters args = mainFilters { args with average_error_rate := none }) ∧
    (∀ args : Args, args.mean_quality = some 0 →
      mainFilters args = mainFilters { args with mean_quality := none }) ∧
    (∀ args : Args, args.median_quality = some 0 →
      mainFilters args = mainFilters { args with median_quality := none }) ∧
    mainFilters ⟨some 0, some 0, some 0, some 0, some 0⟩ = [] ∧
    mainFilters ⟨none, none, none, none, none⟩ = [] := by
  refine ⟨?_, ?_, ?_, ?_, ?_, ?_, ?_⟩
  · intro args h; simp [mainFilters, truthyInt, truthyRat, h]
  · intro args h; simp [mainFilters, truthyInt, truthyRat, h]
  · intro args h; simp [mainFilters, truthyInt, truthyRat, h]
  · intro args h; simp [mainFilters, truthyInt, truthyRat, h]
  · intro args h; simp [mainFilters, truthyInt, truthyRat, h]
  · simp [mainFilters, truthyInt, truthyRat]
  · simp [mainFilters, truthyInt, truthyRat]

/-- C10 (witness): supplying `--min-length 0` and nothing else builds
the same (empty) filter list as supplying no options at all. -/
theorem falsy_options_add_no_filter_witness :
    (⟨some 0, none, none, none, none⟩ : Args).min_length = some 0 ∧
    mainFilters ⟨some 0, none, none, none, none⟩
      = mainFilters ⟨none, none, none, none, none⟩ :=
  ⟨rfl, falsy_options_add_no_filter.1 ⟨some 0, none, none, none, none⟩ rfl⟩

/-- Errors raised by `multiple_files_to_records` (both are
`dnaio.FastqFormatError` in the source): records out of sync, carrying
the names of the offending records the message reports, or input
files with an unequal number of records. -/
inductive SyncError
  | desync (names : List String)
  | unequalLength
deriving DecidableEq

/-- The two-file branch of `multiple_files_to_records` together with
the trailing exhaustion check, with Python's exact `zip` semantics: on
the step where the second iterator is exhausted, one record of the
first iterator has already been pulled and discarded by `zip`, so the
check that follows sees only the remainder `as`. -/
def sync2 (isMate : SequenceRecord → SequenceRecord → Bool) :
    List SequenceRecord → List SequenceRecord →
    List (List SequenceRecord) × Option SyncError
  | a :: as, b :: bs =>
    if isMate a b then
      let p := sync2 isMate as bs
      ([a, b] :: p.1, p.2)
    else ([], some (SyncError.desync [a.name, b.name]))
  | [], bs => ([], if bs.isEmpty then none else some SyncError.unequalLength)
  | _ :: as, [] => ([], if as.isEmpty then none else some SyncError.unequalLength)

/-- The result of one pull of Python's `zip` over a list of iterators:
either a full group with the advanced iterator states, or the states
left behind when some iterator was exhausted (iterators before it have
already had one record pulled and discarded). -/
inductive PullRes
  | group (g : List SequenceRecord) (rest : List (List SequenceRecord))
  | stopped (rest : List (List SequenceRecord))

/-- One `zip` pull: draw the head of every iterator in order, stopping
at the first exhausted iterator. -/
def zipPull : List (List SequenceRecord) → PullRes
  | [] => PullRes.group [] []
  | (r :: rs) :: its =>
    match zipPull its with
    | PullRes.group g rest => PullRes.group (r :: g) (rs :: rest)
    | PullRes.stopped rest => PullRes.stopped (rs :: rest)
  | [] :: its => PullRes.stopped ([] :: its)

/-- The trailing check of `multiple_files_to_records`: `next` each
iterator in order and raise the unequal-length error at the first one
still yielding a record. -/
def exhaustCheck : List (List SequenceRecord) → Option SyncError
  | [] => none
  | [] :: rest => exhaustCheck rest
  | (_ :: _) :: _ => some SyncError.unequalLength

/-- Total number of records remaining across the iterators. -/
def sumLen (files : List (List SequenceRecord)) : Nat :=
  (files.map List.length).sum

theorem zipPull_group_sumLen :
    ∀ {files : List (List SequenceRecord)} {g rest},
      zipPull files = PullRes.group g rest →
      sumLen rest + files.length = sumLen files := by
  intro files
  induction files with
  | nil =>
    intro g rest h
    cases h
    rfl
  | cons f its ih =>
    intro g rest h
    cases f with
    | nil => simp [zipPull] at h
    | cons r rs =>
      rw [zipPull] at h
      cases hz : zipPull its with
      | group g' rest' =>
        rw [hz] at h
        cases h
        have := ih hz
        simp only [sumLen, List.map_cons, List.sum_cons, List.length_cons] at *
        omega
      | stopped rest' =>
        rw [hz] at h
        cases h

set_option linter.unusedVariables false in
/-- The generic (three-or-more files) branch of
`multiple_files_to_records` with its trailing exhaustion check:
repeatedly `zip`-pull one group, verify `records_are_mates`, and stop
with the desync error (naming every record of the group) on the first
mismatch. -/
def syncN (areMates : List SequenceRecord → Bool)
    (files : List (List SequenceRecord)) :
    List (List SequenceRecord) × Option SyncError :=
  if hne : files = [] then ([], none)
  else
    match hz : zipPull files with
    | PullRes.stopped rest => ([], exhaustCheck rest)
    | PullRes.group g rest =>
      if areMates g then
        let p := syncN areMates rest
        (g :: p.1, p.2)
      else ([], some (SyncError.desync (g.map SequenceRecord.name)))
termination_by sumLen files
decreasing_by
  have h1 := zipPull_group_sumLen hz
  have h2 : files.length ≠ 0 := fun hl => hne (List.length_eq_zero.mp hl)
  omega

/-- `multiple_files_to_records`: the single-file, paired-file and
generic branches (the exhaustion check is folded into `sync2` /
`syncN` because `zip` has already advanced the iterators). -/
def multipleFilesToRecords (isMate : SequenceRecord → SequenceRecord → Bool)
    (areMates : List SequenceRecord → Bool)
    (files : List (List SequenceRecord)) :
    List (List SequenceRecord) × Option SyncError :=
  match files with
  | [f] => (f.map (fun r => [r]), none)
  | [f1, f2] => sync2 isMate f1 f2
  | fs => syncN areMates fs

/-- Modelled from the spec: dnaio's mate-name rule (dnaio is an
external collaborator of this repository) — the recognized `/1` `/2`
mate-pair suffix is stripped before comparison. -/
def stripMateSuffix (s : String) : String :=
  match s.data.reverse with
  | c :: d :: rest =>
    if d = Char.ofNat 47 && (c = Char.ofNat 49 || c = Char.ofNat 50) then
      String.mk rest.reverse
    else s
  | _ => s

/-- Modelled from the spec: two records are mates when their names are
identical, or identical up to the `/1` `/2` suffix convention. -/
def isMateSpec (a b : SequenceRecord) : Bool :=
  a.name == b.name || stripMateSuffix a.name == stripMateSuffix b.name

/-- C2: `multiple_files_to_records` evaluated at two sources of
unequal record count with the longer source first — one record against
none. Python's `zip` pulls and discards the extra record of the first
source before noticing the second is exhausted, so the trailing check
finds every iterator exhausted and no `UnequalLengthError` is raised;
the mirrored input (empty source first) is detected. The unequal
record count of the first input goes silently undetected, against both
the spec and the intent of the code's own exhaustion check. -/
theorem unequal_lengths_undetected_first_longer :
    multipleFilesToRecords isMateSpec (fun _ => true)
      [[⟨"read1", "A", [70]⟩], []] = ([], none) ∧
    multipleFilesToRecords isMateSpec (fun _ => true)
      [[], [⟨"read1", "A", [70]⟩]]
      = ([], some SyncError.unequalLength) :=
  ⟨rfl, rfl⟩

/-- C8: whenever the records pulled from the synchronized sources are
not mate-equal, `multiple_files_to_records` stops with a desync error
naming the offending record identifiers and yields no further groups:
for two files (which route through `sync2`), a mismatch after any
prefix of matching pairs yields exactly the prefix groups and the
error naming the two offending records; for the generic branch, a
group failing `records_are_mates` produces the error naming the whole
group and nothing further, while a passing group is yielded and the
computation continues on the advanced iterators. -/
theorem desync_error_spec :
    (∀ (isMate : SequenceRecord → SequenceRecord → Bool)
        (areMates : List SequenceRecord → Bool)
        (f1 f2 : List SequenceRecord),
      multipleFilesToRecords isMate areMates [f1, f2] = sync2 isMate f1 f2) ∧
    (∀ (isMate : SequenceRecord → SequenceRecord → Bool)
        (pre1 pre2 as bs : List SequenceRecord) (a b : SequenceRecord),
      pre1.length = pre2.length →
      (∀ p ∈ pre1.zip pre2, isMate p.1 p.2 = true) →
      isMate a b = false →
      sync2 isMate (pre1 ++ a :: as) (pre2 ++ b :: bs)
        = ((pre1.zip pre2).map (fun p => [p.1, p.2]),
           some (SyncError.desync [a.name, b.name]))) ∧
    (∀ (areMates : List SequenceRecord → Bool)
        (files rest : List (List SequenceRecord)) (g : List SequenceRecord),
      files ≠ [] → zipPull files = PullRes.group g rest →
      areMates g = false →
      syncN areMates files
        = ([], some (SyncError.desync (g.map SequenceRecord.name)))) ∧
    (∀ (areMates : List SequenceRecord → Bool)
        (files rest : List (List SequenceRecord)) (g : List SequenceRecord),
      files ≠ [] → zipPull files = PullRes.group g rest →
      areMates g = true →
      syncN areMates files
        = (g :: (syncN areMates rest).1, (syncN areMates rest).2)) := by
  refine ⟨fun _ _ _ _ => rfl, ?_, ?_, ?_⟩
  · intro isMate pre1
    induction pre1 with
    | nil =>
      intro pre2 as bs a b hlen hpre hbad
      have hpre2 : pre2 = [] := List.length_eq_zero.mp hlen.symm
      subst hpre2
      simp [sync2, hbad]
    | cons x xs ih =>
      intro pre2 as bs a b hlen hpre hbad
      cases pre2 with
      | nil => simp at hlen
      | cons y ys =>
        have hxy : isMate x y = true := by
          apply hpre (x, y)
          simp [List.zip_cons_cons]
        have hlen' : xs.length = ys.length := by simpa using hlen
        have hpre' : ∀ p ∈ xs.zip ys, isMate p.1 p.2 = true := by
          intro p hp
          apply hpre p
          simp [List.zip_cons_cons, hp]
        have hrec := ih ys as bs a b hlen' hpre' hbad
        simp only [List.cons_append, sync2, hxy, if_true,
          List.zip_cons_cons, List.map_cons, List.append_eq]
        rw [hrec]
  · intro areMates files rest g hne hzip hm
    rw [syncN]
    rw [dif_neg hne]
    split
    · rename_i rest' heq
      rw [hzip] at heq
      cases heq
    · rename_i g' rest' heq
      rw [hzip] at heq
      cases heq
      rw [if_neg (by simp [hm])]
  · intro areMates files rest g hne hzip hm
    rw [syncN]
    rw [dif_neg hne]
    split
    · rename_i rest' heq
      rw [hzip] at heq
      cases heq
    · rename_i g' rest' heq
      rw [hzip] at heq
      cases heq
      rw [if_pos hm]

/-- C8 (witness): the spec's concrete scenario — two sources whose
first records share the name "read0" and whose second records are
named "read1" and "read2" — yields the one matching group and the
desync error naming "read1" and "read2". -/
theorem desync_error_spec_witness :
    isMateSpec ⟨"read1", "A", [70]⟩ ⟨"read2", "C", [71]⟩ = false ∧
    sync2 isMateSpec
      [⟨"read0", "A", [70]⟩, ⟨"read1", "A", [70]⟩]
      [⟨"read0", "C", [71]⟩, ⟨"read2", "C", [71]⟩]
      = ([[⟨"read0", "A", [70]⟩, ⟨"read0", "C", [71]⟩]],
         some (SyncError.desync ["read1", "read2"])) := by
  refine ⟨by decide, ?_⟩
  have h := desync_error_spec.2.1 isMateSpec
    [⟨"read0", "A", [70]⟩] [⟨"read0", "C", [71]⟩] [] []
    ⟨"read1", "A", [70]⟩ ⟨"read2", "C", [71]⟩
    (by decide) (by decide) (by decide)
  simpa using h

end FastqFilter
